import Mathlib

/-!
# Query-filter serialisation of `client/filter.go`

A shallow embedding of the filter types of the `client` package
(`FilterModifier`, `TimestampFilter`, `TimestampFilterList`, `Filter`,
`ExclusionFilter`, `LabelSelector`) and of their `Serialize` methods, followed
by theorems about what each method writes into the `url.Values` sink.

Modelling conventions

* A Go `string` is a Lean `String`; `strings.Join(xs, ",")` is
  `String.intercalate "," xs`; a Go slice is a `List` (a `nil` slice and an
  empty slice are both `[]`, the code only ever takes `len` of them).
* A Go map is an association list with unique keys (`AList`).  The order of
  the entries of the association list is not observable by the code, except
  through `range`, whose order Go leaves unspecified: a `range` loop is
  modelled by running the loop body over an arbitrary permutation of the
  entries.
* A method with a pointer receiver returns the new value of the receiver; a
  method that writes into the sink returns the new sink together with the
  returned `error` (`none` is `nil`).
* The sink handed to `Serialize` is an allocated map (`url.Values{}` or
  `make(url.Values)`), as in every call of the package.
* `time.Time` and `Time.Format(time.RFC3339)` belong to the standard library:
  the type of instants and the formatting function are parameters
  (`Time`, `FormatRFC3339`).
-/

namespace Cfclient

/-! ## The sink: `url.Values` -/

/-- The Go type `url.Values`, `map[string][]string`. -/
abbrev Values := AList (fun _ : String => List String)

/-- The Go type `error`; `none` is `nil`. -/
abbrev error := Option String

/-- The map index expression `v[key]`: the stored slice, `nil` for a missing key. -/
def Values.index (v : Values) (key : String) : List String :=
  (v.lookup key).getD []

/-- The method `url.Values.Add`: `v[key] = append(v[key], value)`. -/
def Values.Add (v : Values) (key value : String) : Values :=
  v.insert key (Values.index v key ++ [value])

/-! ## `FilterModifier` -/

/-- The Go type `FilterModifier`, declared as `int`. -/
structure FilterModifier where
  val : Int
  deriving DecidableEq, Repr

def FilterModifierNone : FilterModifier := ⟨0⟩
def FilterModifierGreaterThan : FilterModifier := ⟨1⟩
def FilterModifierLessThan : FilterModifier := ⟨2⟩
def FilterModifierGreaterThanOrEqual : FilterModifier := ⟨3⟩
def FilterModifierLessThanOrEqual : FilterModifier := ⟨4⟩

/-- The method `FilterModifier.String`: a `switch` with four cases and a default. -/
def FilterModifier.String (r : FilterModifier) : String :=
  if r = FilterModifierGreaterThan then "gt"
  else if r = FilterModifierGreaterThanOrEqual then "gte"
  else if r = FilterModifierLessThan then "lt"
  else if r = FilterModifierLessThanOrEqual then "lte"
  else ""

/-! ## `TimestampFilter` and `TimestampFilterList` -/

/-- The Go struct `TimestampFilter`; the zero value of `Operator` is
`FilterModifierNone`. -/
structure TimestampFilter (Time : Type) where
  Timestamp : List Time
  Operator : FilterModifier := FilterModifierNone

/-- The Go type `TimestampFilterList`, `[]TimestampFilter`. -/
abbrev TimestampFilterList (Time : Type) := List (TimestampFilter Time)

section Timestamp

variable {Time : Type}

/-- The method `(*TimestampFilterList).EqualTo(ts ...time.Time)`. -/
def TimestampFilterList.EqualTo (tl : TimestampFilterList Time) (ts : List Time) :
    TimestampFilterList Time :=
  tl ++ [{ Timestamp := ts }]

/-- The method `(*TimestampFilterList).Before`. -/
def TimestampFilterList.Before (tl : TimestampFilterList Time) (ts : Time) :
    TimestampFilterList Time :=
  tl ++ [{ Timestamp := [ts], Operator := FilterModifierLessThan }]

/-- The method `(*TimestampFilterList).BeforeOrEqualTo`. -/
def TimestampFilterList.BeforeOrEqualTo (tl : TimestampFilterList Time) (ts : Time) :
    TimestampFilterList Time :=
  tl ++ [{ Timestamp := [ts], Operator := FilterModifierLessThanOrEqual }]

/-- The method `(*TimestampFilterList).After`. -/
def TimestampFilterList.After (tl : TimestampFilterList Time) (ts : Time) :
    TimestampFilterList Time :=
  tl ++ [{ Timestamp := [ts], Operator := FilterModifierGreaterThan }]

/-- The method `(*TimestampFilterList).AfterOrEqualTo`. -/
def TimestampFilterList.AfterOrEqualTo (tl : TimestampFilterList Time) (ts : Time) :
    TimestampFilterList Time :=
  tl ++ [{ Timestamp := [ts], Operator := FilterModifierGreaterThanOrEqual }]

variable (FormatRFC3339 : Time → String)

/-- The method `TimestampFilter.Serialize`. -/
def TimestampFilter.Serialize (t : TimestampFilter Time) (values : Values) (tag : String) :
    Values × error :=
  if t.Timestamp.length > 0 then
    let tag := if t.Operator ≠ FilterModifierNone then tag ++ "[" ++ t.Operator.String ++ "]"
      else tag
    let timestamps := t.Timestamp.map FormatRFC3339
    (Values.Add values tag (String.intercalate "," timestamps), none)
  else (values, none)

/-- The method `TimestampFilterList.Serialize`: the loop stops at the first
predicate whose `Serialize` returns an error. -/
def TimestampFilterList.Serialize (tl : TimestampFilterList Time) (values : Values)
    (tag : String) : Values × error :=
  match tl with
  | [] => (values, none)
  | t :: rest =>
    match t.Serialize FormatRFC3339 values tag with
    | (values, some err) => (values, some err)
    | (values, none) => TimestampFilterList.Serialize rest values tag

end Timestamp

/-! ## `Filter` and `ExclusionFilter` -/

/-- The Go struct `Filter`. -/
structure Filter where
  Values : List String := []
  deriving DecidableEq, Repr

/-- The method `(*Filter).EqualTo(v ...string)`. -/
def Filter.EqualTo (_f : Filter) (v : List String) : Filter :=
  { Values := v }

/-- The method `Filter.Serialize`. -/
def Filter.Serialize (f : Filter) (values : Cfclient.Values) (tag : String) :
    Cfclient.Values × error :=
  if f.Values.length > 0 then
    (Values.Add values tag (String.intercalate "," f.Values), none)
  else (values, none)

/-- The Go struct `ExclusionFilter`, which embeds `Filter`. -/
structure ExclusionFilter extends Filter where
  Not : Bool := false
  deriving DecidableEq, Repr

/-- The method `(*Filter).EqualTo` promoted to `*ExclusionFilter`: it assigns
the embedded `Values` field and nothing else. -/
def ExclusionFilter.EqualTo (e : ExclusionFilter) (v : List String) : ExclusionFilter :=
  { e with toFilter := e.toFilter.EqualTo v }

/-- The method `(*ExclusionFilter).NotEqualTo(v ...string)`. -/
def ExclusionFilter.NotEqualTo (e : ExclusionFilter) (v : List String) : ExclusionFilter :=
  { e with Values := v, Not := true }

/-- The method `ExclusionFilter.Serialize`. -/
def ExclusionFilter.Serialize (e : ExclusionFilter) (values : Cfclient.Values) (tag : String) :
    Cfclient.Values × error :=
  if e.Values.length > 0 then
    let tag := if e.Not then tag ++ "[not]" else tag
    (Values.Add values tag (String.intercalate "," e.Values), none)
  else (values, none)

/-! ## `LabelSelector` -/

/-- The Go type `LabelSelector`, `map[string]ExclusionFilter`. -/
abbrev LabelSelector := AList (fun _ : String => ExclusionFilter)

/-- The method `LabelSelector.Existence`: `l[key] = ExclusionFilter{}`. -/
def LabelSelector.Existence (l : LabelSelector) (key : String) : LabelSelector :=
  l.insert key {}

/-- The method `LabelSelector.NotExistence`: `l[key] = ExclusionFilter{Not: true}`. -/
def LabelSelector.NotExistence (l : LabelSelector) (key : String) : LabelSelector :=
  l.insert key { Not := true }

/-- The method `LabelSelector.EqualTo(key string, values ...string)`. -/
def LabelSelector.EqualTo (l : LabelSelector) (key : String) (values : List String) :
    LabelSelector :=
  l.insert key { Values := values }

/-- The method `LabelSelector.NotEqualTo(key string, values ...string)`. -/
def LabelSelector.NotEqualTo (l : LabelSelector) (key : String) (values : List String) :
    LabelSelector :=
  l.insert key { Values := values, Not := true }

/-- The body of the `range` loop of `LabelSelector.Serialize` for the entry
`k, v`: the string appended to `selectors`.  The `switch` is on
`len(v.Values)`; in `case 1` the only element is `v.Values[0]`; `ops` starts
as the empty string. -/
def LabelSelector.selector (k : String) (v : ExclusionFilter) : String :=
  match v.Values with
  | [] =>
    let ops := if v.Not then "!" else ""
    ops ++ k
  | [v0] =>
    let ops := if v.Not then "!=" else "="
    k ++ ops ++ v0
  | _ =>
    let ops := if v.Not then " notin (" else " in ("
    k ++ ops ++ String.intercalate "," v.Values ++ ")"

/-- The method `LabelSelector.Serialize`, run with the `range` loop visiting
the entries in the order `order`. -/
def LabelSelector.SerializeRange (l : LabelSelector)
    (order : List (Sigma (fun _ : String => ExclusionFilter))) (values : Values)
    (tag : String) : Values × error :=
  if l.entries.length = 0 then (values, none)
  else
    let selectors := order.foldl
      (fun selectors kv => selectors ++ [LabelSelector.selector kv.1 kv.2]) []
    (Values.Add values tag (String.intercalate "," selectors), none)

/-- The method `LabelSelector.Serialize`: `out` is a possible result of the
call, the `range` loop being free to visit the entries of the map in any
order. -/
def LabelSelector.Serialize (l : LabelSelector) (values : Values) (tag : String)
    (out : Values × error) : Prop :=
  ∃ order, order.Perm l.entries ∧ out = LabelSelector.SerializeRange l order values tag

/-! ## Specification vocabulary -/

/-- The sink `s2` is the sink `s1` with exactly one more value: `x` is appended
to the values held under `name`, and every other name keeps what it had (or
stays absent). -/
def Values.AppendsOne (s1 s2 : Values) (name x : String) : Prop :=
  s2.lookup name = some (Values.index s1 name ++ [x]) ∧
    ∀ k, k ≠ name → s2.lookup k = s1.lookup k

/-- The five declared constants of `FilterModifier`. -/
def FilterModifier.declared : List FilterModifier :=
  [FilterModifierNone, FilterModifierGreaterThan, FilterModifierLessThan,
    FilterModifierGreaterThanOrEqual, FilterModifierLessThanOrEqual]

/-- The name under which `TimestampFilter.Serialize` writes, as computed at
the head of its `if` body. -/
def TimestampFilter.effectiveTag (op : FilterModifier) (tag : String) : String :=
  if op ≠ FilterModifierNone then tag ++ "[" ++ op.String ++ "]" else tag

/-- The selector of the specification's example: `Existence("a")`,
`NotExistence("b")`, `EqualTo("c", "1")`, `NotEqualTo("d", "1")`,
`EqualTo("e", "1", "2")`, `NotEqualTo("f", "1", "2")` on an empty map. -/
def exampleSelector : LabelSelector :=
  LabelSelector.NotEqualTo
    (LabelSelector.EqualTo
      (LabelSelector.NotEqualTo
        (LabelSelector.EqualTo
          (LabelSelector.NotExistence (LabelSelector.Existence ∅ "a") "b")
          "c" ["1"])
        "d" ["1"])
      "e" ["1", "2"])
    "f" ["1", "2"]

/-- The clause of the key `k` in the selector `l`. -/
def LabelSelector.clauseOf (l : LabelSelector) (k : String) : String :=
  LabelSelector.selector k ((l.lookup k).getD {})

/-- One call of a helper of `*TimestampFilterList`, with its arguments. -/
inductive TimestampFilterList.Call (Time : Type) where
  | EqualTo (ts : List Time)
  | Before (ts : Time)
  | BeforeOrEqualTo (ts : Time)
  | After (ts : Time)
  | AfterOrEqualTo (ts : Time)

/-- The list after the helper call `c` on the list `tl`. -/
def TimestampFilterList.call {Time : Type} (tl : TimestampFilterList Time)
    (c : TimestampFilterList.Call Time) : TimestampFilterList Time :=
  match c with
  | .EqualTo ts => TimestampFilterList.EqualTo tl ts
  | .Before ts => TimestampFilterList.Before tl ts
  | .BeforeOrEqualTo ts => TimestampFilterList.BeforeOrEqualTo tl ts
  | .After ts => TimestampFilterList.After tl ts
  | .AfterOrEqualTo ts => TimestampFilterList.AfterOrEqualTo tl ts

/-- The list reached from the empty list by the helper calls `calls`, made in
that order. -/
def TimestampFilterList.build {Time : Type} (calls : List (TimestampFilterList.Call Time)) :
    TimestampFilterList Time :=
  calls.foldl TimestampFilterList.call []

/-- A predicate as a bound helper makes it: exactly one instant and one of the
four comparison modifiers. -/
def TimestampFilter.IsBound {Time : Type} (p : TimestampFilter Time) : Prop :=
  p.Timestamp.length = 1 ∧
    (p.Operator = FilterModifierLessThan ∨ p.Operator = FilterModifierLessThanOrEqual ∨
      p.Operator = FilterModifierGreaterThan ∨ p.Operator = FilterModifierGreaterThanOrEqual)

/-- The string `s` cut at every character `,`: the reading a server makes of
a comma-joined value. -/
def splitComma (s : String) : List String :=
  (s.data.splitOn ',').map String.mk

/-! ## Lemmas on the sink -/

theorem Values.index_Add_self (s : Values) (name x : String) :
    Values.index (Values.Add s name x) name = Values.index s name ++ [x] := by
  simp [Values.index, Values.Add, AList.lookup_insert]

theorem Values.lookup_Add_ne (s : Values) {name k : String} (x : String) (h : k ≠ name) :
    (Values.Add s name x).lookup k = s.lookup k := by
  simp [Values.Add, AList.lookup_insert_ne h]

theorem Values.index_Add_ne (s : Values) {name k : String} (x : String) (h : k ≠ name) :
    Values.index (Values.Add s name x) k = Values.index s k := by
  simp [Values.index, Values.lookup_Add_ne s x h]

theorem Values.appendsOne_Add (s : Values) (name x : String) :
    Values.AppendsOne s (Values.Add s name x) name x :=
  ⟨by simp [Values.Add, AList.lookup_insert], fun _ h => Values.lookup_Add_ne s x h⟩

theorem Values.Add_empty (name x : String) :
    Values.Add ∅ name x = AList.singleton name [x] := by
  simp [Values.Add, Values.index, AList.insert_empty]

/-! ## `Filter` and `ExclusionFilter` -/

/-- C1: for a non-empty value list `V`, any tag `T` and any sink `s`,
`Filter{V}.Serialize(s, T)` is `s.Add(T, strings.Join(V, ","))` and returns
`nil`: the sink gains exactly one value, the comma-joined list in the
caller's order, under `T`, and every other name keeps what it had (a
two-element list `[a, b]` is written as `a,b`). -/
theorem filter_serialize_nonempty (V : List String) (T : String) (s : Values)
    (hV : V ≠ []) :
    Filter.Serialize { Values := V } s T
        = (Values.Add s T (String.intercalate "," V), none) ∧
      Values.AppendsOne s (Filter.Serialize { Values := V } s T).1 T
        (String.intercalate "," V) ∧
      Values.index (Filter.Serialize { Values := V } s T).1 T
        = Values.index s T ++ [String.intercalate "," V] ∧
      (∀ a b : String, String.intercalate "," [a, b] = a ++ "," ++ b) := by
  have hlen : V.length > 0 := List.length_pos.mpr hV
  have h : Filter.Serialize { Values := V } s T
      = (Values.Add s T (String.intercalate "," V), none) := by
    simp [Filter.Serialize, hlen]
  refine ⟨h, ?_, ?_, ?_⟩
  · rw [h]; exact Values.appendsOne_Add s T _
  · rw [h]; exact Values.index_Add_self s T _
  · intro a b
    simp [String.intercalate, String.intercalate.go, String.append_assoc]

theorem filter_serialize_nonempty_witness :
    Values.index (Filter.Serialize { Values := ["a", "b"] } ∅ "names").1 "names"
      = Values.index ∅ "names" ++ [String.intercalate "," ["a", "b"]] :=
  (filter_serialize_nonempty ["a", "b"] "names" ∅ (by decide)).2.2.1

/-- C2: for a non-empty value list `V`, any tag `T` and any sink `s`,
`ExclusionFilter{V, Not}.Serialize(s, T)` returns `nil` and adds exactly one
value, `strings.Join(V, ",")`: under `T + "[not]"` when `Not` is true, under
`T` itself when `Not` is false. -/
theorem exclusionFilter_serialize_nonempty (V : List String) (T : String) (s : Values)
    (hV : V ≠ []) :
    (ExclusionFilter.Serialize { Values := V, Not := true } s T
        = (Values.Add s (T ++ "[not]") (String.intercalate "," V), none) ∧
      Values.AppendsOne s (ExclusionFilter.Serialize { Values := V, Not := true } s T).1
        (T ++ "[not]") (String.intercalate "," V)) ∧
    (ExclusionFilter.Serialize { Values := V, Not := false } s T
        = (Values.Add s T (String.intercalate "," V), none) ∧
      Values.AppendsOne s (ExclusionFilter.Serialize { Values := V, Not := false } s T).1
        T (String.intercalate "," V)) := by
  have hlen : V.length > 0 := List.length_pos.mpr hV
  have h1 : ExclusionFilter.Serialize { Values := V, Not := true } s T
      = (Values.Add s (T ++ "[not]") (String.intercalate "," V), none) := by
    simp [ExclusionFilter.Serialize, hlen]
  have h2 : ExclusionFilter.Serialize { Values := V, Not := false } s T
      = (Values.Add s T (String.intercalate "," V), none) := by
    simp [ExclusionFilter.Serialize, hlen]
  refine ⟨⟨h1, ?_⟩, ⟨h2, ?_⟩⟩
  · rw [h1]; exact Values.appendsOne_Add s _ _
  · rw [h2]; exact Values.appendsOne_Add s _ _

theorem exclusionFilter_serialize_nonempty_witness :
    ExclusionFilter.Serialize { Values := ["x", "y"], Not := true } ∅ "guids"
      = (Values.Add ∅ ("guids" ++ "[not]") (String.intercalate "," ["x", "y"]), none) :=
  (exclusionFilter_serialize_nonempty ["x", "y"] "guids" ∅ (by decide)).1.1

/-- C3: serialising a `Filter` with no values, an `ExclusionFilter` with no
values (whatever `Not` is) or a `TimestampFilter` with no instants (whatever
`Operator` is) returns the sink it was given, unchanged, and `nil`. -/
theorem serialize_empty_noop {Time : Type} (FormatRFC3339 : Time → String)
    (T : String) (s : Values) (n : Bool) (op : FilterModifier) :
    Filter.Serialize { Values := [] } s T = (s, none) ∧
    ExclusionFilter.Serialize { Values := [], Not := n } s T = (s, none) ∧
    TimestampFilter.Serialize FormatRFC3339 { Timestamp := [], Operator := op } s T
      = (s, none) := by
  refine ⟨?_, ?_, ?_⟩
  · simp [Filter.Serialize]
  · simp [ExclusionFilter.Serialize]
  · simp [TimestampFilter.Serialize]

/-! ## `FilterModifier.String` -/

/-- C9: `FilterModifier.String` is a total function on the integers behind
`FilterModifier`: `""` for `None`, `"gt"`, `"lt"`, `"gte"`, `"lte"` for the
four comparison constants, and `""` for every value that is none of the five
constants. -/
theorem filterModifier_string_table :
    FilterModifier.String FilterModifierNone = "" ∧
    FilterModifier.String FilterModifierGreaterThan = "gt" ∧
    FilterModifier.String FilterModifierLessThan = "lt" ∧
    FilterModifier.String FilterModifierGreaterThanOrEqual = "gte" ∧
    FilterModifier.String FilterModifierLessThanOrEqual = "lte" ∧
    ∀ r : FilterModifier,
      r ≠ FilterModifierNone → r ≠ FilterModifierGreaterThan →
      r ≠ FilterModifierLessThan → r ≠ FilterModifierGreaterThanOrEqual →
      r ≠ FilterModifierLessThanOrEqual → FilterModifier.String r = "" := by
  refine ⟨by decide, by decide, by decide, by decide, by decide, ?_⟩
  intro r _ h1 h2 h3 h4
  simp [FilterModifier.String, h1, h2, h3, h4]

theorem filterModifier_string_table_witness :
    FilterModifier.String ⟨7⟩ = "" ∧ FilterModifier.String ⟨-1⟩ = "" :=
  ⟨filterModifier_string_table.2.2.2.2.2 ⟨7⟩ (by decide) (by decide) (by decide)
      (by decide) (by decide),
    filterModifier_string_table.2.2.2.2.2 ⟨-1⟩ (by decide) (by decide) (by decide)
      (by decide) (by decide)⟩

/-! ## `LabelSelector.Serialize` -/

/-- The `selectors` slice built by the `range` loop is the list of the
clauses of the visited entries, in the order of the visit. -/
theorem LabelSelector.foldl_selectors
    (order : List (Sigma (fun _ : String => ExclusionFilter))) (acc : List String) :
    order.foldl (fun selectors kv => selectors ++ [LabelSelector.selector kv.1 kv.2]) acc
      = acc ++ order.map (fun kv => LabelSelector.selector kv.1 kv.2) := by
  induction order generalizing acc with
  | nil => simp
  | cons kv rest ih => simp [List.foldl_cons, ih]

theorem LabelSelector.SerializeRange_of_ne_nil (l : LabelSelector)
    (order : List (Sigma (fun _ : String => ExclusionFilter))) (s : Values) (T : String)
    (h : l.entries ≠ []) :
    LabelSelector.SerializeRange l order s T
      = (Values.Add s T (String.intercalate ","
          (order.map (fun kv => LabelSelector.selector kv.1 kv.2))), none) := by
  have hlen : l.entries.length ≠ 0 := fun h0 => h (List.length_eq_zero.mp h0)
  simp [LabelSelector.SerializeRange, hlen, LabelSelector.foldl_selectors]

theorem LabelSelector.SerializeRange_of_nil (l : LabelSelector)
    (order : List (Sigma (fun _ : String => ExclusionFilter))) (s : Values) (T : String)
    (h : l.entries = []) :
    LabelSelector.SerializeRange l order s T = (s, none) := by
  simp [LabelSelector.SerializeRange, h]

/-- The call always has a result: the loop may visit the entries as stored. -/
theorem LabelSelector.Serialize_total (l : LabelSelector) (s : Values) (T : String) :
    ∃ out, LabelSelector.Serialize l s T out :=
  ⟨_, l.entries, List.Perm.refl _, rfl⟩

/-- A selector with a single key has one possible result: its clause is added
as one value under the tag. -/
theorem LabelSelector.Serialize_singleton (k : String) (e : ExclusionFilter) (T : String)
    (s : Values) (out : Values × error) :
    LabelSelector.Serialize (AList.singleton k e) s T out ↔
      out = (Values.Add s T (LabelSelector.selector k e), none) := by
  have hne : (AList.singleton k e : LabelSelector).entries ≠ [] := by
    simp [AList.singleton]
  constructor
  · rintro ⟨order, hperm, rfl⟩
    have ho : order = [⟨k, e⟩] := by
      have : (AList.singleton k e : LabelSelector).entries = [⟨k, e⟩] := rfl
      rw [this] at hperm
      exact List.perm_singleton.mp hperm
    rw [LabelSelector.SerializeRange_of_ne_nil _ _ _ _ hne, ho]
    simp [String.intercalate, String.intercalate.go]
  · rintro rfl
    refine ⟨[⟨k, e⟩], List.Perm.refl _, ?_⟩
    rw [LabelSelector.SerializeRange_of_ne_nil _ _ _ _ hne]
    simp [String.intercalate, String.intercalate.go]

/-- C4: the clause written for a key `k` follows the six-row table on the
number of values and the negation flag, the values being comma-joined in their
stored order; and a selector holding the single key `k` has exactly one
possible result, which adds that clause as one value under the tag. -/
theorem labelSelector_clause_table (k : String) :
    LabelSelector.selector k { Values := [], Not := false } = k ∧
    LabelSelector.selector k { Values := [], Not := true } = "!" ++ k ∧
    (∀ v, LabelSelector.selector k { Values := [v], Not := false } = k ++ "=" ++ v) ∧
    (∀ v, LabelSelector.selector k { Values := [v], Not := true } = k ++ "!=" ++ v) ∧
    (∀ V : List String, 2 ≤ V.length →
      LabelSelector.selector k { Values := V, Not := false }
        = k ++ " in (" ++ String.intercalate "," V ++ ")") ∧
    (∀ V : List String, 2 ≤ V.length →
      LabelSelector.selector k { Values := V, Not := true }
        = k ++ " notin (" ++ String.intercalate "," V ++ ")") ∧
    (∀ (e : ExclusionFilter) (T : String) (s : Values) (out : Values × error),
      LabelSelector.Serialize (AList.singleton k e) s T out ↔
        out = (Values.Add s T (LabelSelector.selector k e), none)) ∧
    (∀ (e : ExclusionFilter) (T : String) (s : Values),
      Values.AppendsOne s (Values.Add s T (LabelSelector.selector k e)) T
        (LabelSelector.selector k e)) := by
  refine ⟨?_, ?_, ?_, ?_, ?_, ?_, ?_, ?_⟩
  · simp [LabelSelector.selector]
  · simp [LabelSelector.selector]
  · intro v; simp [LabelSelector.selector]
  · intro v; simp [LabelSelector.selector]
  · intro V hV
    match V, hV with
    | a :: b :: rest, _ => simp [LabelSelector.selector]
  · intro V hV
    match V, hV with
    | a :: b :: rest, _ => simp [LabelSelector.selector]
  · intro e T s out
    exact LabelSelector.Serialize_singleton k e T s out
  · intro e T s
    exact Values.appendsOne_Add s T _

theorem labelSelector_clause_table_witness :
    LabelSelector.selector "env" { Values := ["prod", "stage"], Not := true }
      = "env" ++ " notin (" ++ String.intercalate "," ["prod", "stage"] ++ ")" ∧
    LabelSelector.Serialize (AList.singleton "env" { Values := ["prod"] }) ∅ "label_selector"
      (Values.Add ∅ "label_selector"
        (LabelSelector.selector "env" { Values := ["prod"] }), none) :=
  ⟨(labelSelector_clause_table "env").2.2.2.2.2.1 ["prod", "stage"] (by decide),
    ((labelSelector_clause_table "env").2.2.2.2.2.2.1 _ _ _ _).mpr rfl⟩

/-- Visiting the entries in the order `order` writes the clauses of the keys
in the order `order.map Sigma.fst`. -/
theorem LabelSelector.map_selector_eq (l : LabelSelector)
    (order : List (Sigma (fun _ : String => ExclusionFilter))) (h : order.Perm l.entries) :
    order.map (fun kv => LabelSelector.selector kv.1 kv.2)
      = (order.map Sigma.fst).map (LabelSelector.clauseOf l) := by
  rw [List.map_map]
  apply List.map_congr_left
  intro kv hkv
  have hmem : (⟨kv.1, kv.2⟩ : Sigma (fun _ : String => ExclusionFilter)) ∈ l.entries :=
    h.subset hkv
  have hl : l.lookup kv.1 = some kv.2 := by
    have := (AList.mem_lookup_iff (s := l) (a := kv.1) (b := kv.2)).mpr hmem
    simpa using this
  simp [LabelSelector.clauseOf, hl]

/-- C5: `LabelSelector.Serialize` always has a result and returns `nil`.  On an
empty map the sink is returned unchanged.  On a non-empty map every possible
result adds exactly one value under the tag: the comma-join of the clauses of
the keys, taken in some ordering `ks` of the keys of the map in which every key
occurs exactly once.  For the example selector the clauses joined are, up to
order, `a`, `!b`, `c=1`, `d!=1`, `e in (1,2)`, `f notin (1,2)`. -/
theorem labelSelector_serialize_one_value (l : LabelSelector) (T : String) (s : Values) :
    (∃ out, LabelSelector.Serialize l s T out) ∧
    (∀ out, LabelSelector.Serialize l s T out →
      out.2 = none ∧
      (l.entries = [] → out.1 = s) ∧
      (l.entries ≠ [] →
        ∃ ks : List String, ks.Perm l.keys ∧ ks.Nodup ∧
          out.1 = Values.Add s T
            (String.intercalate "," (ks.map (LabelSelector.clauseOf l))) ∧
          Values.AppendsOne s out.1 T
            (String.intercalate "," (ks.map (LabelSelector.clauseOf l))))) ∧
    (∀ out, LabelSelector.Serialize exampleSelector s T out →
      ∃ cs : List String,
        cs.Perm ["a", "!b", "c=1", "d!=1", "e in (1,2)", "f notin (1,2)"] ∧
        out = (Values.Add s T (String.intercalate "," cs), none) ∧
        Values.AppendsOne s out.1 T (String.intercalate "," cs)) := by
  refine ⟨LabelSelector.Serialize_total l s T, ?_, ?_⟩
  · rintro out ⟨order, hperm, rfl⟩
    by_cases hnil : l.entries = []
    · rw [LabelSelector.SerializeRange_of_nil l order s T hnil]
      exact ⟨rfl, fun _ => rfl, fun h => absurd hnil h⟩
    · rw [LabelSelector.SerializeRange_of_ne_nil l order s T hnil]
      refine ⟨rfl, fun h => absurd h hnil, fun _ => ?_⟩
      have hks : (order.map Sigma.fst).Perm l.keys := hperm.map Sigma.fst
      refine ⟨order.map Sigma.fst, hks, hks.nodup_iff.mpr l.keys_nodup, ?_, ?_⟩
      · rw [LabelSelector.map_selector_eq l order hperm]
      · rw [LabelSelector.map_selector_eq l order hperm]
        exact Values.appendsOne_Add s T _
  · rintro out ⟨order, hperm, rfl⟩
    have hne : exampleSelector.entries ≠ [] := by decide
    rw [LabelSelector.SerializeRange_of_ne_nil _ order s T hne]
    refine ⟨order.map (fun kv => LabelSelector.selector kv.1 kv.2), ?_, rfl,
      Values.appendsOne_Add s T _⟩
    have h1 := hperm.map (fun kv => LabelSelector.selector kv.1 kv.2)
    have h2 : exampleSelector.entries.map (fun kv => LabelSelector.selector kv.1 kv.2)
        = ["f notin (1,2)", "e in (1,2)", "d!=1", "c=1", "!b", "a"] := by decide
    rw [h2] at h1
    exact h1.trans (List.reverse_perm
      ["a", "!b", "c=1", "d!=1", "e in (1,2)", "f notin (1,2)"])

theorem labelSelector_serialize_one_value_witness :
    ∃ cs : List String,
      cs.Perm ["a", "!b", "c=1", "d!=1", "e in (1,2)", "f notin (1,2)"] ∧
      LabelSelector.SerializeRange exampleSelector exampleSelector.entries ∅ "label_selector"
        = (Values.Add ∅ "label_selector" (String.intercalate "," cs), none) ∧
      Values.AppendsOne ∅
        (LabelSelector.SerializeRange exampleSelector exampleSelector.entries ∅
          "label_selector").1 "label_selector" (String.intercalate "," cs) :=
  (labelSelector_serialize_one_value exampleSelector "label_selector" ∅).2.2 _
    ⟨exampleSelector.entries, List.Perm.refl _, rfl⟩

/-! ## `TimestampFilter` and `TimestampFilterList` -/

/-- Joining a single string gives that string; joining two or more puts one
separator between the first string and the join of the rest. -/
theorem join_singleton (sep a : String) : String.intercalate sep [a] = a := by
  simp [String.intercalate, String.intercalate.go]

theorem join_go_append (sep acc : String) (xs : List String) :
    String.intercalate.go acc sep xs = acc ++ String.intercalate.go "" sep xs := by
  induction xs generalizing acc with
  | nil => simp [String.intercalate.go]
  | cons x rest ih =>
    rw [String.intercalate.go, ih, String.intercalate.go, ih ("" ++ sep ++ x)]
    simp [String.append_assoc]

theorem join_cons_cons (sep a b : String) (rest : List String) :
    String.intercalate sep (a :: b :: rest)
      = a ++ sep ++ String.intercalate sep (b :: rest) := by
  simp only [String.intercalate, String.intercalate.go]
  rw [join_go_append sep (a ++ sep ++ b), join_go_append sep b]
  simp [String.append_assoc]

section Timestamp

variable {Time : Type} (FormatRFC3339 : Time → String)

/-- A predicate with at least one instant adds one value, the comma-join of
its formatted instants, under the tag or the tag with its bracket suffix. -/
theorem TimestampFilter.Serialize_of_ne_nil (t : TimestampFilter Time) (s : Values)
    (T : String) (h : t.Timestamp ≠ []) :
    t.Serialize FormatRFC3339 s T
      = (Values.Add s
          (if t.Operator ≠ FilterModifierNone then T ++ "[" ++ t.Operator.String ++ "]" else T)
          (String.intercalate "," (t.Timestamp.map FormatRFC3339)), none) := by
  have hlen : t.Timestamp.length > 0 := List.length_pos.mpr h
  simp [TimestampFilter.Serialize, hlen]

theorem timestampFilter_serialize_snd (t : TimestampFilter Time) (s : Values) (T : String) :
    (t.Serialize FormatRFC3339 s T).2 = none := by
  unfold TimestampFilter.Serialize
  split <;> rfl

theorem TimestampFilterList.Serialize_cons (t : TimestampFilter Time)
    (rest : TimestampFilterList Time) (s : Values) (T : String) :
    TimestampFilterList.Serialize FormatRFC3339 (t :: rest) s T
      = TimestampFilterList.Serialize FormatRFC3339 rest (t.Serialize FormatRFC3339 s T).1 T := by
  have h := timestampFilter_serialize_snd FormatRFC3339 t s T
  rw [TimestampFilterList.Serialize]
  generalize t.Serialize FormatRFC3339 s T = r at h ⊢
  obtain ⟨v, e⟩ := r
  simp only at h
  subst h
  rfl

/-- C6: on an empty list, one bound helper followed by `Serialize` under `T`
onto an empty sink gives a sink with exactly one entry, whose only value is
the formatted instant and whose name is `T + "[lt]"` for `Before`,
`T + "[lte]"` for `BeforeOrEqualTo`, `T + "[gt]"` for `After` and
`T + "[gte]"` for `AfterOrEqualTo`; the call returns `nil`. -/
theorem timestampFilterList_bound_helpers (t : Time) (T : String) :
    TimestampFilterList.Serialize FormatRFC3339 (TimestampFilterList.Before [] t) ∅ T
      = (AList.singleton (T ++ "[lt]") [FormatRFC3339 t], none) ∧
    TimestampFilterList.Serialize FormatRFC3339 (TimestampFilterList.BeforeOrEqualTo [] t) ∅ T
      = (AList.singleton (T ++ "[lte]") [FormatRFC3339 t], none) ∧
    TimestampFilterList.Serialize FormatRFC3339 (TimestampFilterList.After [] t) ∅ T
      = (AList.singleton (T ++ "[gt]") [FormatRFC3339 t], none) ∧
    TimestampFilterList.Serialize FormatRFC3339 (TimestampFilterList.AfterOrEqualTo [] t) ∅ T
      = (AList.singleton (T ++ "[gte]") [FormatRFC3339 t], none) := by
  have hlt : T ++ "[" ++ "lt" ++ "]" = T ++ "[lt]" := by
    rw [String.append_assoc, String.append_assoc]; rfl
  have hlte : T ++ "[" ++ "lte" ++ "]" = T ++ "[lte]" := by
    rw [String.append_assoc, String.append_assoc]; rfl
  have hgt : T ++ "[" ++ "gt" ++ "]" = T ++ "[gt]" := by
    rw [String.append_assoc, String.append_assoc]; rfl
  have hgte : T ++ "[" ++ "gte" ++ "]" = T ++ "[gte]" := by
    rw [String.append_assoc, String.append_assoc]; rfl
  refine ⟨?_, ?_, ?_, ?_⟩
  · simp only [TimestampFilterList.Before, List.nil_append,
      TimestampFilterList.Serialize_cons, TimestampFilterList.Serialize]
    rw [TimestampFilter.Serialize_of_ne_nil _ _ _ _ (by simp)]
    have hop : FilterModifierLessThan ≠ FilterModifierNone := by decide
    have hs : FilterModifier.String FilterModifierLessThan = "lt" := by decide
    simp only [hop, hs, if_true, ne_eq, not_false_eq_true, List.map, join_singleton, hlt,
      Values.Add_empty]
  · simp only [TimestampFilterList.BeforeOrEqualTo, List.nil_append,
      TimestampFilterList.Serialize_cons, TimestampFilterList.Serialize]
    rw [TimestampFilter.Serialize_of_ne_nil _ _ _ _ (by simp)]
    have hop : FilterModifierLessThanOrEqual ≠ FilterModifierNone := by decide
    have hs : FilterModifier.String FilterModifierLessThanOrEqual = "lte" := by decide
    simp only [hop, hs, if_true, ne_eq, not_false_eq_true, List.map, join_singleton, hlte,
      Values.Add_empty]
  · simp only [TimestampFilterList.After, List.nil_append,
      TimestampFilterList.Serialize_cons, TimestampFilterList.Serialize]
    rw [TimestampFilter.Serialize_of_ne_nil _ _ _ _ (by simp)]
    have hop : FilterModifierGreaterThan ≠ FilterModifierNone := by decide
    have hs : FilterModifier.String FilterModifierGreaterThan = "gt" := by decide
    simp only [hop, hs, if_true, ne_eq, not_false_eq_true, List.map, join_singleton, hgt,
      Values.Add_empty]
  · simp only [TimestampFilterList.AfterOrEqualTo, List.nil_append,
      TimestampFilterList.Serialize_cons, TimestampFilterList.Serialize]
    rw [TimestampFilter.Serialize_of_ne_nil _ _ _ _ (by simp)]
    have hop : FilterModifierGreaterThanOrEqual ≠ FilterModifierNone := by decide
    have hs : FilterModifier.String FilterModifierGreaterThanOrEqual = "gte" := by decide
    simp only [hop, hs, if_true, ne_eq, not_false_eq_true, List.map, join_singleton, hgte,
      Values.Add_empty]

/-- C7: on an empty list, `EqualTo(t1, ..., tn)` with `n ≥ 1` followed by
`Serialize` under `T` onto an empty sink gives a sink with exactly one entry,
named `T` with no bracket suffix, whose only value is the comma-join of the
formatted instants in the given order (for two instants,
`rfc3339(t1) + "," + rfc3339(t2)`); the call returns `nil`. -/
theorem timestampFilterList_equalTo (ts : List Time) (T : String) (hts : ts ≠ []) :
    TimestampFilterList.Serialize FormatRFC3339 (TimestampFilterList.EqualTo [] ts) ∅ T
      = (AList.singleton T [String.intercalate "," (ts.map FormatRFC3339)], none) ∧
    (∀ t1 t2 : Time, String.intercalate "," ([t1, t2].map FormatRFC3339)
      = FormatRFC3339 t1 ++ "," ++ FormatRFC3339 t2) ∧
    (∀ (t1 t2 : Time) (rest : List Time),
      String.intercalate "," ((t1 :: t2 :: rest).map FormatRFC3339)
        = FormatRFC3339 t1 ++ "," ++ String.intercalate "," ((t2 :: rest).map FormatRFC3339)) := by
  refine ⟨?_, ?_, ?_⟩
  · simp only [TimestampFilterList.EqualTo, List.nil_append,
      TimestampFilterList.Serialize_cons, TimestampFilterList.Serialize]
    rw [TimestampFilter.Serialize_of_ne_nil _ _ _ _ hts]
    simp [Values.Add_empty]
  · intro t1 t2
    simp [join_cons_cons, join_singleton]
  · intro t1 t2 rest
    simp [join_cons_cons]

end Timestamp

theorem timestampFilterList_equalTo_witness :
    TimestampFilterList.Serialize (fun n : Nat => if n = 0 then "1970-01-01T00:00:00Z"
        else "1970-01-01T00:00:01Z") (TimestampFilterList.EqualTo [] [0, 1]) ∅ "created_ats"
      = (AList.singleton "created_ats"
          [String.intercalate "," ([0, 1].map (fun n : Nat =>
            if n = 0 then "1970-01-01T00:00:00Z" else "1970-01-01T00:00:01Z"))], none) :=
  (timestampFilterList_equalTo _ [0, 1] "created_ats" (by decide)).1

/-! ## Names written by predicates with different modifiers -/

theorem string_append_left_cancel {a b c : String} (h : a ++ b = a ++ c) : b = c := by
  have hd := congrArg String.data h
  simp only [String.data_append] at hd
  exact String.ext (List.append_cancel_left hd)

theorem string_ne_append_of_length_pos (a b : String) (h : 0 < b.length) : a ≠ a ++ b := by
  intro he
  have hl := congrArg String.length he
  simp only [String.length_append] at hl
  omega

theorem TimestampFilter.effectiveTag_injOn (T : String) (op1 op2 : FilterModifier)
    (h1 : op1 ∈ FilterModifier.declared) (h2 : op2 ∈ FilterModifier.declared)
    (hne : op1 ≠ op2) :
    TimestampFilter.effectiveTag op1 T ≠ TimestampFilter.effectiveTag op2 T := by
  have key : ∀ a b : String, a ≠ b → T ++ "[" ++ a ++ "]" ≠ T ++ "[" ++ b ++ "]" := by
    intro a b hab he
    rw [String.append_assoc, String.append_assoc, String.append_assoc, String.append_assoc]
      at he
    have h3 := string_append_left_cancel (string_append_left_cancel he)
    have hd := congrArg String.data h3
    simp only [String.data_append] at hd
    exact hab (String.ext (List.append_cancel_right hd))
  have plain : ∀ a : String, T ≠ T ++ "[" ++ a ++ "]" := by
    intro a
    rw [String.append_assoc, String.append_assoc]
    apply string_ne_append_of_length_pos
    simp only [String.length_append]
    have : "[".length = 1 := rfl
    omega
  simp only [FilterModifier.declared, List.mem_cons, List.mem_singleton, List.not_mem_nil,
    or_false] at h1 h2
  rcases h1 with rfl | rfl | rfl | rfl | rfl <;> rcases h2 with rfl | rfl | rfl | rfl | rfl <;>
    first
    | exact absurd rfl hne
    | exact plain _
    | exact fun h => plain _ h.symm
    | exact key _ _ (by decide)

theorem Values.lookup_Add_self (s : Values) (name x : String) :
    (Values.Add s name x).lookup name = some (Values.index s name ++ [x]) := by
  simp [Values.Add, AList.lookup_insert]

section Timestamp

variable {Time : Type} (FormatRFC3339 : Time → String)

theorem TimestampFilter.Serialize_eq_effectiveTag (t : TimestampFilter Time) (s : Values)
    (T : String) (h : t.Timestamp ≠ []) :
    t.Serialize FormatRFC3339 s T
      = (Values.Add s (TimestampFilter.effectiveTag t.Operator T)
          (String.intercalate "," (t.Timestamp.map FormatRFC3339)), none) :=
  TimestampFilter.Serialize_of_ne_nil FormatRFC3339 t s T h

/-- C8, as the code has it: `TimestampFilterList.Serialize` returns `nil` and leaves the sink
obtained by serialising the predicates one after another, in list order, each
into the sink left by the previous one.  `After(t1)` then `EqualTo(t2)` under
`"created_ats"` on an empty sink gives one value under `"created_ats[gt]"`,
one under `"created_ats"` and nothing else.  Two predicates (with instants)
whose modifiers are different declared constants write under two different
names; two predicates with the same modifier write two values under the same
name, the first predicate's value before the second's, after the values the
name already held. -/
theorem timestampFilterList_serialize_in_order (tl : TimestampFilterList Time) (T : String)
    (s : Values) :
    TimestampFilterList.Serialize FormatRFC3339 tl s T
      = (tl.foldl (fun values t => (t.Serialize FormatRFC3339 values T).1) s, none) ∧
    (∀ t1 t2 : Time,
      (TimestampFilterList.Serialize FormatRFC3339
          (TimestampFilterList.EqualTo (TimestampFilterList.After [] t1) [t2]) ∅
          "created_ats").1.lookup "created_ats[gt]" = some [FormatRFC3339 t1] ∧
      (TimestampFilterList.Serialize FormatRFC3339
          (TimestampFilterList.EqualTo (TimestampFilterList.After [] t1) [t2]) ∅
          "created_ats").1.lookup "created_ats" = some [FormatRFC3339 t2] ∧
      ∀ k, k ≠ "created_ats[gt]" → k ≠ "created_ats" →
        (TimestampFilterList.Serialize FormatRFC3339
          (TimestampFilterList.EqualTo (TimestampFilterList.After [] t1) [t2]) ∅
          "created_ats").1.lookup k = none) ∧
    (∀ (op1 op2 : FilterModifier) (ts1 ts2 : List Time),
      op1 ∈ FilterModifier.declared → op2 ∈ FilterModifier.declared → op1 ≠ op2 →
      ts1 ≠ [] → ts2 ≠ [] →
      TimestampFilter.effectiveTag op1 T ≠ TimestampFilter.effectiveTag op2 T ∧
      (TimestampFilterList.Serialize FormatRFC3339
          [{ Timestamp := ts1, Operator := op1 }, { Timestamp := ts2, Operator := op2 }] s
          T).1.lookup (TimestampFilter.effectiveTag op1 T)
        = some (Values.index s (TimestampFilter.effectiveTag op1 T)
            ++ [String.intercalate "," (ts1.map FormatRFC3339)]) ∧
      (TimestampFilterList.Serialize FormatRFC3339
          [{ Timestamp := ts1, Operator := op1 }, { Timestamp := ts2, Operator := op2 }] s
          T).1.lookup (TimestampFilter.effectiveTag op2 T)
        = some (Values.index s (TimestampFilter.effectiveTag op2 T)
            ++ [String.intercalate "," (ts2.map FormatRFC3339)])) ∧
    (∀ (op : FilterModifier) (ts1 ts2 : List Time), ts1 ≠ [] → ts2 ≠ [] →
      (TimestampFilterList.Serialize FormatRFC3339
          [{ Timestamp := ts1, Operator := op }, { Timestamp := ts2, Operator := op }] s
          T).1.lookup (TimestampFilter.effectiveTag op T)
        = some (Values.index s (TimestampFilter.effectiveTag op T)
            ++ [String.intercalate "," (ts1.map FormatRFC3339),
                String.intercalate "," (ts2.map FormatRFC3339)]) ∧
      ∀ k, k ≠ TimestampFilter.effectiveTag op T →
        (TimestampFilterList.Serialize FormatRFC3339
          [{ Timestamp := ts1, Operator := op }, { Timestamp := ts2, Operator := op }] s
          T).1.lookup k = s.lookup k) := by
  have two : ∀ (a b : TimestampFilter Time) (s0 : Values) (T0 : String), a.Timestamp ≠ [] →
      b.Timestamp ≠ [] →
      (TimestampFilterList.Serialize FormatRFC3339 [a, b] s0 T0).1
        = Values.Add
            (Values.Add s0 (TimestampFilter.effectiveTag a.Operator T0)
              (String.intercalate "," (a.Timestamp.map FormatRFC3339)))
            (TimestampFilter.effectiveTag b.Operator T0)
            (String.intercalate "," (b.Timestamp.map FormatRFC3339)) := by
    intro a b s0 T0 ha hb
    rw [TimestampFilterList.Serialize_cons, TimestampFilterList.Serialize_cons,
      TimestampFilter.Serialize_eq_effectiveTag _ a _ _ ha,
      TimestampFilter.Serialize_eq_effectiveTag _ b _ _ hb]
    rfl
  refine ⟨?_, ?_, ?_, ?_⟩
  · induction tl generalizing s with
    | nil => rfl
    | cons t rest ih => rw [TimestampFilterList.Serialize_cons, ih, List.foldl_cons]
  · intro t1 t2
    have hne : ("created_ats[gt]" : String) ≠ "created_ats" := by decide
    have h := two { Timestamp := [t1], Operator := FilterModifierGreaterThan }
      { Timestamp := [t2] } ∅ "created_ats" (by simp) (by simp)
    have e1 : TimestampFilter.effectiveTag FilterModifierGreaterThan "created_ats"
        = "created_ats[gt]" := by decide
    have e2 : TimestampFilter.effectiveTag FilterModifierNone "created_ats"
        = "created_ats" := by decide
    simp only [e1, e2, List.map, join_singleton] at h
    simp only [TimestampFilterList.After, TimestampFilterList.EqualTo, List.nil_append,
      List.singleton_append]
    rw [h]
    refine ⟨?_, ?_, ?_⟩
    · rw [Values.lookup_Add_ne _ _ hne, Values.lookup_Add_self]
      simp [Values.index]
    · rw [Values.lookup_Add_self, Values.index_Add_ne _ _ hne.symm]
      simp [Values.index]
    · intro k hk1 hk2
      rw [Values.lookup_Add_ne _ _ hk2, Values.lookup_Add_ne _ _ hk1]
      exact AList.lookup_empty k
  · intro op1 op2 ts1 ts2 h1 h2 hne hts1 hts2
    have hn := TimestampFilter.effectiveTag_injOn T op1 op2 h1 h2 hne
    have h := two { Timestamp := ts1, Operator := op1 } { Timestamp := ts2, Operator := op2 } s
      T hts1 hts2
    simp only at h
    rw [h]
    refine ⟨hn, ?_, ?_⟩
    · rw [Values.lookup_Add_ne _ _ hn, Values.lookup_Add_self]
    · rw [Values.lookup_Add_self, Values.index_Add_ne _ _ hn.symm]
  · intro op ts1 ts2 hts1 hts2
    have h := two { Timestamp := ts1, Operator := op } { Timestamp := ts2, Operator := op } s
      T hts1 hts2
    simp only at h
    rw [h]
    refine ⟨?_, ?_⟩
    · rw [Values.lookup_Add_self, Values.index_Add_self]
      simp
    · intro k hk
      rw [Values.lookup_Add_ne _ _ hk, Values.lookup_Add_ne _ _ hk]

end Timestamp

theorem timestampFilterList_serialize_in_order_witness :
    TimestampFilter.effectiveTag FilterModifierGreaterThan "created_ats"
      ≠ TimestampFilter.effectiveTag FilterModifierLessThan "created_ats" ∧
    (TimestampFilterList.Serialize (fun x : String => x)
        [{ Timestamp := ["2020-01-01T00:00:00Z"], Operator := FilterModifierGreaterThan },
          { Timestamp := ["2021-01-01T00:00:00Z"], Operator := FilterModifierLessThan }] ∅
        "created_ats").1.lookup
        (TimestampFilter.effectiveTag FilterModifierGreaterThan "created_ats")
      = some (Values.index ∅
            (TimestampFilter.effectiveTag FilterModifierGreaterThan "created_ats")
          ++ [String.intercalate "," (["2020-01-01T00:00:00Z"].map (fun x : String => x))]) :=
  let h := (timestampFilterList_serialize_in_order (fun x : String => x) [] "created_ats"
    ∅).2.2.1 FilterModifierGreaterThan FilterModifierLessThan ["2020-01-01T00:00:00Z"]
    ["2021-01-01T00:00:00Z"] (by decide) (by decide) (by decide) (by decide) (by decide)
  ⟨h.1, h.2.1⟩

/-! ## Helpers called with no values -/

section ZeroValues

variable {Time : Type} (FormatRFC3339 : Time → String)

/-- C10, as the code has it: `Filter.EqualTo()` and
`ExclusionFilter.NotEqualTo()` (on a filter in any state, a fresh one
included) and `TimestampFilterList.EqualTo()` on a fresh list, called with no
values, make the following `Serialize` return the sink unchanged and `nil`.
`LabelSelector.EqualTo(key)` and `LabelSelector.NotEqualTo(key)` with no
values on a fresh selector store an entry without values, as `Existence` and
`NotExistence` do, and the following `Serialize` has exactly one result, which
returns `nil` and adds one value under the tag: `key` after `EqualTo(key)`,
`"!" + key` after `NotEqualTo(key)`. -/
theorem zero_values_helpers (f : Filter) (e : ExclusionFilter) (key T : String)
    (s : Values) :
    Filter.Serialize (Filter.EqualTo f []) s T = (s, none) ∧
    ExclusionFilter.Serialize (ExclusionFilter.NotEqualTo e []) s T = (s, none) ∧
    TimestampFilterList.Serialize FormatRFC3339 (TimestampFilterList.EqualTo [] []) s T
      = (s, none) ∧
    LabelSelector.EqualTo ∅ key [] = LabelSelector.Existence ∅ key ∧
    LabelSelector.NotEqualTo ∅ key [] = LabelSelector.NotExistence ∅ key ∧
    (∀ out, LabelSelector.Serialize (LabelSelector.EqualTo ∅ key []) s T out ↔
      out = (Values.Add s T key, none)) ∧
    (∀ out, LabelSelector.Serialize (LabelSelector.NotEqualTo ∅ key []) s T out ↔
      out = (Values.Add s T ("!" ++ key), none)) := by
  refine ⟨?_, ?_, ?_, rfl, rfl, ?_, ?_⟩
  · simp [Filter.Serialize, Filter.EqualTo]
  · simp [ExclusionFilter.Serialize, ExclusionFilter.NotEqualTo]
  · simp [TimestampFilterList.EqualTo, TimestampFilterList.Serialize_cons,
      TimestampFilterList.Serialize, TimestampFilter.Serialize]
  · intro out
    have h := LabelSelector.Serialize_singleton key { Values := [] } T s out
    have hc : LabelSelector.selector key { Values := [] } = key := by
      simp [LabelSelector.selector]
    rw [hc] at h
    exact h
  · intro out
    have h := LabelSelector.Serialize_singleton key { Values := [], Not := true } T s out
    have hc : LabelSelector.selector key { Values := [], Not := true } = "!" ++ key := by
      simp [LabelSelector.selector]
    rw [hc] at h
    exact h

end ZeroValues

/-- C10 fails for `LabelSelector`: after `EqualTo("a")` with no values on a
fresh selector, `Serialize` under `"label_selector"` onto an empty sink
results in a sink holding the value `a` under `"label_selector"`, and the
unchanged sink is not a possible result; likewise `NotEqualTo("a")` writes
`!a`. -/
theorem zero_values_labelSelector_writes :
    LabelSelector.Serialize (LabelSelector.EqualTo ∅ "a" []) ∅ "label_selector"
      (AList.singleton "label_selector" ["a"], none) ∧
    ¬ LabelSelector.Serialize (LabelSelector.EqualTo ∅ "a" []) ∅ "label_selector" (∅, none) ∧
    LabelSelector.Serialize (LabelSelector.NotEqualTo ∅ "a" []) ∅ "label_selector"
      (AList.singleton "label_selector" ["!a"], none) ∧
    ¬ LabelSelector.Serialize (LabelSelector.NotEqualTo ∅ "a" []) ∅ "label_selector"
      (∅, none) := by
  have h1 := LabelSelector.Serialize_singleton "a" { Values := [] } "label_selector" ∅
  have h2 := LabelSelector.Serialize_singleton "a" { Values := [], Not := true }
    "label_selector" ∅
  refine ⟨(h1 _).mpr rfl, ?_, (h2 _).mpr rfl, ?_⟩
  · intro h
    have he := congrArg (fun o : Values × error => o.1.entries) ((h1 _).mp h)
    exact absurd he (by decide)
  · intro h
    have he := congrArg (fun o : Values × error => o.1.entries) ((h2 _).mp h)
    exact absurd he (by decide)

/-! ## Mutators of `ExclusionFilter` -/

/-- C11, as the code has it: `NotEqualTo(V)` leaves the values `V` and the
flag `Not` true, whatever the filter held.  The promoted `EqualTo(V)` leaves
the values `V` and the flag `Not` as it was before the call: false on a fresh
filter, still true after an earlier `NotEqualTo`.  With `V` non-empty the
filter therefore serialises under `T + "[not]"` after `NotEqualTo(V)`, and
after `EqualTo(V)` under `T + "[not]"` or `T` according to the flag held before
the call. -/
theorem exclusionFilter_mutators (e : ExclusionFilter) (V : List String) (T : String)
    (s : Values) :
    ExclusionFilter.NotEqualTo e V = { Values := V, Not := true } ∧
    (ExclusionFilter.EqualTo e V).Values = V ∧
    (ExclusionFilter.EqualTo e V).Not = e.Not ∧
    (ExclusionFilter.EqualTo {} V).Not = false ∧
    (V ≠ [] →
      ExclusionFilter.Serialize (ExclusionFilter.NotEqualTo e V) s T
        = (Values.Add s (T ++ "[not]") (String.intercalate "," V), none)) ∧
    (V ≠ [] →
      ExclusionFilter.Serialize (ExclusionFilter.EqualTo e V) s T
        = (Values.Add s (if e.Not then T ++ "[not]" else T) (String.intercalate "," V),
            none)) := by
  refine ⟨rfl, rfl, rfl, rfl, ?_, ?_⟩
  · intro hV
    have hlen : V.length > 0 := List.length_pos.mpr hV
    simp [ExclusionFilter.Serialize, ExclusionFilter.NotEqualTo, hlen]
  · intro hV
    have hlen : V.length > 0 := List.length_pos.mpr hV
    simp [ExclusionFilter.Serialize, ExclusionFilter.EqualTo, Filter.EqualTo, hlen]

theorem exclusionFilter_mutators_witness :
    ExclusionFilter.Serialize
        (ExclusionFilter.EqualTo { Values := ["a"], Not := true } ["b", "c"]) ∅ "names"
      = (Values.Add ∅
          (if ({ Values := ["a"], Not := true } : ExclusionFilter).Not then "names" ++ "[not]"
            else "names")
          (String.intercalate "," ["b", "c"]), none) :=
  (exclusionFilter_mutators { Values := ["a"], Not := true } ["b", "c"] "names" ∅).2.2.2.2.2
    (by decide)

/-- C11 fails for the promoted `EqualTo`: on a filter that `NotEqualTo("a")`
has set, `EqualTo("b")` leaves `Not` true, and the filter serialises `b` under
`"names[not]"`, not under `"names"`. -/
theorem exclusionFilter_equalTo_keeps_not :
    (ExclusionFilter.EqualTo (ExclusionFilter.NotEqualTo {} ["a"]) ["b"]).Not = true ∧
    (ExclusionFilter.Serialize
        (ExclusionFilter.EqualTo (ExclusionFilter.NotEqualTo {} ["a"]) ["b"]) ∅ "names").1.entries
      = [⟨"names[not]", ["b"]⟩] := by
  constructor
  · rfl
  · decide

/-! ## Lists built with the helpers of `TimestampFilterList` -/

section Helpers

variable {Time : Type}

/-- Each helper call appends one predicate, which is an `EqualTo` predicate
(modifier `None`) or a bound predicate. -/
theorem TimestampFilterList.call_eq_append (tl : TimestampFilterList Time)
    (c : TimestampFilterList.Call Time) :
    ∃ p : TimestampFilter Time, TimestampFilterList.call tl c = tl ++ [p] ∧
      (p.Operator = FilterModifierNone ∨ p.IsBound) ∧
      (p.Timestamp = [] → c = .EqualTo []) := by
  cases c with
  | EqualTo ts =>
    refine ⟨{ Timestamp := ts }, rfl, Or.inl rfl, ?_⟩
    intro h
    simp only at h
    rw [h]
  | Before ts =>
    exact ⟨_, rfl, Or.inr ⟨rfl, Or.inl rfl⟩, fun h => absurd h (by simp)⟩
  | BeforeOrEqualTo ts =>
    exact ⟨_, rfl, Or.inr ⟨rfl, Or.inr (Or.inl rfl)⟩, fun h => absurd h (by simp)⟩
  | After ts =>
    exact ⟨_, rfl, Or.inr ⟨rfl, Or.inr (Or.inr (Or.inl rfl))⟩, fun h => absurd h (by simp)⟩
  | AfterOrEqualTo ts =>
    exact ⟨_, rfl, Or.inr ⟨rfl, Or.inr (Or.inr (Or.inr rfl))⟩, fun h => absurd h (by simp)⟩

/-- An invariant of the predicates that holds for the start list and for the
predicate every call of `calls` appends holds after the calls. -/
theorem TimestampFilterList.foldl_call_invariant (P : TimestampFilter Time → Prop)
    (calls : List (TimestampFilterList.Call Time))
    (hstep : ∀ (tl : TimestampFilterList Time) (c : TimestampFilterList.Call Time),
      c ∈ calls → ∀ p, TimestampFilterList.call tl c = tl ++ [p] → P p)
    (tl : TimestampFilterList Time) (htl : ∀ p ∈ tl, P p) :
    ∀ p ∈ calls.foldl TimestampFilterList.call tl, P p := by
  induction calls generalizing tl with
  | nil => simpa using htl
  | cons c rest ih =>
    rw [List.foldl_cons]
    apply ih
    · intro tl2 c2 hc2
      exact hstep tl2 c2 (List.mem_cons_of_mem _ hc2)
    · obtain ⟨p, hp, _⟩ := TimestampFilterList.call_eq_append tl c
      intro q hq
      rw [hp, List.mem_append, List.mem_singleton] at hq
      rcases hq with hq | rfl
      · exact htl q hq
      · exact hstep tl c (List.mem_cons_self _ _) q hp

/-- C12, as the code has it: the predicate `EqualTo(ts...)` appends has modifier
`None` and exactly the instants given, none when the call has no argument; the
predicate a bound helper appends has exactly one instant and its comparison
modifier.  In every list built from the empty list by helper calls each
predicate has modifier `None` or is a bound predicate, and when every
`EqualTo` call of the sequence is given at least one instant no predicate of
the list has zero instants. -/
theorem timestampFilterList_helpers_invariant (calls : List (TimestampFilterList.Call Time)) :
    (∀ (tl : TimestampFilterList Time) (ts : List Time),
      TimestampFilterList.EqualTo tl ts
        = tl ++ [{ Timestamp := ts, Operator := FilterModifierNone }]) ∧
    (∀ (tl : TimestampFilterList Time) (t : Time),
      TimestampFilterList.Before tl t
        = tl ++ [{ Timestamp := [t], Operator := FilterModifierLessThan }] ∧
      TimestampFilterList.BeforeOrEqualTo tl t
        = tl ++ [{ Timestamp := [t], Operator := FilterModifierLessThanOrEqual }] ∧
      TimestampFilterList.After tl t
        = tl ++ [{ Timestamp := [t], Operator := FilterModifierGreaterThan }] ∧
      TimestampFilterList.AfterOrEqualTo tl t
        = tl ++ [{ Timestamp := [t], Operator := FilterModifierGreaterThanOrEqual }]) ∧
    (∀ p ∈ TimestampFilterList.build calls, p.Operator = FilterModifierNone ∨ p.IsBound) ∧
    ((∀ c ∈ calls, c ≠ TimestampFilterList.Call.EqualTo []) →
      ∀ p ∈ TimestampFilterList.build calls, p.Timestamp ≠ []) := by
  refine ⟨fun _ _ => rfl, fun _ _ => ⟨rfl, rfl, rfl, rfl⟩, ?_, ?_⟩
  · refine TimestampFilterList.foldl_call_invariant
      (fun p => p.Operator = FilterModifierNone ∨ p.IsBound) calls ?_ [] ?_
    · intro tl c _ p hp
      obtain ⟨q, hq, hgood, _⟩ := TimestampFilterList.call_eq_append tl c
      have hpq : p = q := by
        have := hp.symm.trans hq
        simpa using this
      rw [hpq]
      exact hgood
    · intro p hp
      cases hp
  · intro hcalls
    refine TimestampFilterList.foldl_call_invariant
      (fun p => p.Timestamp ≠ []) calls ?_ [] ?_
    · intro tl c hc p hp
      obtain ⟨q, hq, _, hzero⟩ := TimestampFilterList.call_eq_append tl c
      have hpq : p = q := by
        have := hp.symm.trans hq
        simpa using this
      rw [hpq]
      intro h0
      exact hcalls c hc (hzero h0)
    · intro p hp
      cases hp

end Helpers

theorem timestampFilterList_helpers_invariant_witness :
    ∀ p ∈ TimestampFilterList.build
        [TimestampFilterList.Call.After 1, TimestampFilterList.Call.EqualTo [2, 3]],
      p.Timestamp ≠ [] :=
  (timestampFilterList_helpers_invariant
      [TimestampFilterList.Call.After 1, TimestampFilterList.Call.EqualTo [2, 3]]).2.2.2
    (by
      intro c hc
      simp only [List.mem_cons, List.mem_singleton, List.not_mem_nil, or_false] at hc
      rcases hc with rfl | rfl
      · intro h; cases h
      · intro h; cases h)

/-- C12 fails for `EqualTo` called with no argument: the list built from the
empty list by the single call `EqualTo()` holds one predicate, with modifier
`None` and zero instants. -/
theorem timestampFilterList_equalTo_zero_instants :
    ∃ p ∈ TimestampFilterList.build [(TimestampFilterList.Call.EqualTo [] :
        TimestampFilterList.Call Nat)],
      p.Timestamp.length = 0 ∧ p.Operator = FilterModifierNone :=
  ⟨{ Timestamp := [] }, by simp [TimestampFilterList.build, TimestampFilterList.call,
    TimestampFilterList.EqualTo], rfl, rfl⟩

/-! ## Mutators of `LabelSelector` -/

/-- The map assignment `l[key] = v`: the entry of `key` is `v`, every other
key keeps its entry, and the keys are the old keys and `key`, each once. -/
theorem LabelSelector.insert_frame (l : LabelSelector) (key : String) (v : ExclusionFilter) :
    (l.insert key v).lookup key = some v ∧
    (∀ k, k ≠ key → (l.insert key v).lookup k = l.lookup k) ∧
    (∀ k, k ∈ (l.insert key v).keys ↔ k = key ∨ k ∈ l.keys) ∧
    (l.insert key v).keys.Nodup := by
  refine ⟨AList.lookup_insert l, fun k hk => AList.lookup_insert_ne hk, ?_,
    (l.insert key v).keys_nodup⟩
  intro k
  rw [← AList.mem_keys, ← AList.mem_keys]
  exact AList.mem_insert l

/-- C13: after `Existence(k)`, `NotExistence(k)`, `EqualTo(k, V...)` or
`NotEqualTo(k, V...)` the entry of `k` is the one the mutator defines (no
values and `Not` false; no values and `Not` true; `V` and `Not` false; `V` and
`Not` true), whatever `k` held before; every other key keeps its entry or
stays absent; and the keys are the old keys together with `k`, each key
occurring once. -/
theorem labelSelector_mutators_frame (m : LabelSelector) (k : String) (V : List String) :
    ((LabelSelector.Existence m k).lookup k = some { Values := [], Not := false } ∧
      (∀ k2, k2 ≠ k → (LabelSelector.Existence m k).lookup k2 = m.lookup k2) ∧
      (∀ k2, k2 ∈ (LabelSelector.Existence m k).keys ↔ k2 = k ∨ k2 ∈ m.keys) ∧
      (LabelSelector.Existence m k).keys.Nodup) ∧
    ((LabelSelector.NotExistence m k).lookup k = some { Values := [], Not := true } ∧
      (∀ k2, k2 ≠ k → (LabelSelector.NotExistence m k).lookup k2 = m.lookup k2) ∧
      (∀ k2, k2 ∈ (LabelSelector.NotExistence m k).keys ↔ k2 = k ∨ k2 ∈ m.keys) ∧
      (LabelSelector.NotExistence m k).keys.Nodup) ∧
    ((LabelSelector.EqualTo m k V).lookup k = some { Values := V, Not := false } ∧
      (∀ k2, k2 ≠ k → (LabelSelector.EqualTo m k V).lookup k2 = m.lookup k2) ∧
      (∀ k2, k2 ∈ (LabelSelector.EqualTo m k V).keys ↔ k2 = k ∨ k2 ∈ m.keys) ∧
      (LabelSelector.EqualTo m k V).keys.Nodup) ∧
    ((LabelSelector.NotEqualTo m k V).lookup k = some { Values := V, Not := true } ∧
      (∀ k2, k2 ≠ k → (LabelSelector.NotEqualTo m k V).lookup k2 = m.lookup k2) ∧
      (∀ k2, k2 ∈ (LabelSelector.NotEqualTo m k V).keys ↔ k2 = k ∨ k2 ∈ m.keys) ∧
      (LabelSelector.NotEqualTo m k V).keys.Nodup) :=
  ⟨LabelSelector.insert_frame m k _, LabelSelector.insert_frame m k _,
    LabelSelector.insert_frame m k _, LabelSelector.insert_frame m k _⟩

/-! ## `Filter.EqualTo` called again -/

/-- C14: `EqualTo(V1)` followed by `EqualTo(V2)` leaves the value list `V2`
alone, the same filter as `EqualTo(V2)` only; serialising it is serialising
`Filter{V2}`, which for a non-empty `V2` adds `strings.Join(V2, ",")` under
the tag, and never the join of `V1` followed by `V2`. -/
theorem filter_equalTo_replaces (f : Filter) (V1 V2 : List String) (T : String)
    (s : Values) :
    (Filter.EqualTo (Filter.EqualTo f V1) V2).Values = V2 ∧
    Filter.EqualTo (Filter.EqualTo f V1) V2 = Filter.EqualTo f V2 ∧
    Filter.Serialize (Filter.EqualTo (Filter.EqualTo f V1) V2) s T
      = Filter.Serialize (Filter.EqualTo f V2) s T ∧
    Filter.Serialize (Filter.EqualTo (Filter.EqualTo f V1) V2) s T
      = Filter.Serialize { Values := V2 } s T ∧
    (V2 ≠ [] →
      Filter.Serialize (Filter.EqualTo (Filter.EqualTo f V1) V2) s T
        = (Values.Add s T (String.intercalate "," V2), none)) := by
  refine ⟨rfl, rfl, rfl, rfl, ?_⟩
  intro hV
  have hlen : V2.length > 0 := List.length_pos.mpr hV
  simp [Filter.Serialize, Filter.EqualTo, hlen]

theorem filter_equalTo_replaces_witness :
    Filter.Serialize (Filter.EqualTo (Filter.EqualTo {} ["a", "b"]) ["c"]) ∅ "names"
      = (Values.Add ∅ "names" (String.intercalate "," ["c"]), none) :=
  (filter_equalTo_replaces {} ["a", "b"] ["c"] "names" ∅).2.2.2.2 (by decide)

/-! ## Helper calls of `TimestampFilterList` append -/

/-- C18: each helper call on a list `l` gives `l` followed by exactly one new
predicate: the length grows by one and the first `len(l)` predicates are those
of `l`, in their order. -/
theorem timestampFilterList_helpers_append {Time : Type} (l : TimestampFilterList Time)
    (ts : List Time) (t : Time) :
    (TimestampFilterList.EqualTo l ts = l ++ [{ Timestamp := ts }] ∧
      (TimestampFilterList.EqualTo l ts).length = l.length + 1 ∧
      (TimestampFilterList.EqualTo l ts).take l.length = l) ∧
    (TimestampFilterList.Before l t
        = l ++ [{ Timestamp := [t], Operator := FilterModifierLessThan }] ∧
      (TimestampFilterList.Before l t).length = l.length + 1 ∧
      (TimestampFilterList.Before l t).take l.length = l) ∧
    (TimestampFilterList.BeforeOrEqualTo l t
        = l ++ [{ Timestamp := [t], Operator := FilterModifierLessThanOrEqual }] ∧
      (TimestampFilterList.BeforeOrEqualTo l t).length = l.length + 1 ∧
      (TimestampFilterList.BeforeOrEqualTo l t).take l.length = l) ∧
    (TimestampFilterList.After l t
        = l ++ [{ Timestamp := [t], Operator := FilterModifierGreaterThan }] ∧
      (TimestampFilterList.After l t).length = l.length + 1 ∧
      (TimestampFilterList.After l t).take l.length = l) ∧
    (TimestampFilterList.AfterOrEqualTo l t
        = l ++ [{ Timestamp := [t], Operator := FilterModifierGreaterThanOrEqual }] ∧
      (TimestampFilterList.AfterOrEqualTo l t).length = l.length + 1 ∧
      (TimestampFilterList.AfterOrEqualTo l t).take l.length = l) := by
  refine ⟨⟨rfl, ?_, ?_⟩, ⟨rfl, ?_, ?_⟩, ⟨rfl, ?_, ?_⟩, ⟨rfl, ?_, ?_⟩, ⟨rfl, ?_, ?_⟩⟩ <;>
    simp [TimestampFilterList.EqualTo, TimestampFilterList.Before,
      TimestampFilterList.BeforeOrEqualTo, TimestampFilterList.After,
      TimestampFilterList.AfterOrEqualTo]

/-! ## The sink only grows -/

/-- The sink `s2` is the sink `s1`, or `s1` after one `Add` under `name`. -/
theorem Values.grows_of_eq_or_Add {s1 s2 : Values} {name : String}
    (h : s2 = s1 ∨ ∃ x, s2 = Values.Add s1 name x) :
    (∀ k, ∃ extra, Values.index s2 k = Values.index s1 k ++ extra) ∧
    (∀ k, k ≠ name → s2.lookup k = s1.lookup k) := by
  rcases h with rfl | ⟨x, rfl⟩
  · exact ⟨fun k => ⟨[], by simp⟩, fun _ _ => rfl⟩
  · refine ⟨fun k => ?_, fun k hk => Values.lookup_Add_ne s1 x hk⟩
    by_cases hk : k = name
    · subst hk
      exact ⟨[x], Values.index_Add_self s1 k x⟩
    · exact ⟨[], by simp [Values.index_Add_ne s1 x hk]⟩

theorem Values.index_Add_Add_self (s : Values) (name x y : String) :
    Values.index (Values.Add (Values.Add s name x) name y) name
      = Values.index s name ++ [x, y] := by
  rw [Values.index_Add_self, Values.index_Add_self]
  simp

theorem Values.lookup_Add_Add_ne (s : Values) {name k : String} (x y : String)
    (h : k ≠ name) :
    (Values.Add (Values.Add s name x) name y).lookup k = s.lookup k := by
  rw [Values.lookup_Add_ne _ _ h, Values.lookup_Add_ne _ _ h]

theorem filter_serialize_eq_or_Add (f : Filter) (s : Cfclient.Values) (T : String) :
    (f.Serialize s T).1 = s ∨ ∃ x, (f.Serialize s T).1 = Cfclient.Values.Add s T x := by
  unfold Filter.Serialize
  split
  · exact Or.inr ⟨_, rfl⟩
  · exact Or.inl rfl

theorem exclusionFilter_serialize_eq_or_Add (e : ExclusionFilter) (s : Cfclient.Values)
    (T : String) :
    (e.Serialize s T).1 = s ∨
      ∃ x, (e.Serialize s T).1
        = Cfclient.Values.Add s (if e.Not then T ++ "[not]" else T) x := by
  unfold ExclusionFilter.Serialize
  split
  · exact Or.inr ⟨_, rfl⟩
  · exact Or.inl rfl

theorem labelSelector_serialize_eq_or_Add (l : LabelSelector) (s : Values) (T : String)
    (out : Values × error) (h : LabelSelector.Serialize l s T out) :
    out.2 = none ∧ (out.1 = s ∨ ∃ x, out.1 = Values.Add s T x) := by
  obtain ⟨order, _, rfl⟩ := h
  unfold LabelSelector.SerializeRange
  split
  · exact ⟨rfl, Or.inl rfl⟩
  · exact ⟨rfl, Or.inr ⟨_, rfl⟩⟩

section Timestamp

variable {Time : Type} (FormatRFC3339 : Time → String)

theorem timestampFilter_serialize_eq_or_Add (t : TimestampFilter Time) (s : Values)
    (T : String) :
    (t.Serialize FormatRFC3339 s T).1 = s ∨
      ∃ x, (t.Serialize FormatRFC3339 s T).1
        = Values.Add s (TimestampFilter.effectiveTag t.Operator T) x := by
  unfold TimestampFilter.Serialize
  split
  · exact Or.inr ⟨_, rfl⟩
  · exact Or.inl rfl

theorem TimestampFilterList.Serialize_grows (tl : TimestampFilterList Time) (s : Values)
    (T : String) (k : String) :
    ∃ extra, Values.index (TimestampFilterList.Serialize FormatRFC3339 tl s T).1 k
      = Values.index s k ++ extra := by
  induction tl generalizing s with
  | nil => exact ⟨[], by simp [TimestampFilterList.Serialize]⟩
  | cons t rest ih =>
    rw [TimestampFilterList.Serialize_cons]
    obtain ⟨e2, h2⟩ := ih (t.Serialize FormatRFC3339 s T).1
    obtain ⟨e1, h1⟩ :=
      (Values.grows_of_eq_or_Add (timestampFilter_serialize_eq_or_Add FormatRFC3339 t s T)).1 k
    exact ⟨e1 ++ e2, by rw [h2, h1, List.append_assoc]⟩

theorem timestampFilterList_serialize_snd (tl : TimestampFilterList Time) (s : Values)
    (T : String) : (TimestampFilterList.Serialize FormatRFC3339 tl s T).2 = none := by
  induction tl generalizing s with
  | nil => rfl
  | cons t rest ih => rw [TimestampFilterList.Serialize_cons]; exact ih _

/-- C15: serialising an unchanged `Filter`, `ExclusionFilter` or
`TimestampFilter` that holds at least one value twice in a row, under the same
tag, leaves under the effective name the values it held followed by the
encoded value twice, and leaves every other name as it was. -/
theorem serialize_twice_appends_twice (V : List String) (n : Bool) (ts : List Time)
    (op : FilterModifier) (T : String) (s : Values) (hV : V ≠ []) (hts : ts ≠ []) :
    (Values.index
        (Filter.Serialize { Values := V } (Filter.Serialize { Values := V } s T).1 T).1 T
        = Values.index s T ++ [String.intercalate "," V, String.intercalate "," V] ∧
      ∀ k, k ≠ T →
        (Filter.Serialize { Values := V } (Filter.Serialize { Values := V } s T).1 T).1.lookup k
          = s.lookup k) ∧
    (Values.index
        (ExclusionFilter.Serialize { Values := V, Not := n }
          (ExclusionFilter.Serialize { Values := V, Not := n } s T).1 T).1
        (if n then T ++ "[not]" else T)
        = Values.index s (if n then T ++ "[not]" else T)
          ++ [String.intercalate "," V, String.intercalate "," V] ∧
      ∀ k, k ≠ (if n then T ++ "[not]" else T) →
        (ExclusionFilter.Serialize { Values := V, Not := n }
          (ExclusionFilter.Serialize { Values := V, Not := n } s T).1 T).1.lookup k
          = s.lookup k) ∧
    (Values.index
        (TimestampFilter.Serialize FormatRFC3339 { Timestamp := ts, Operator := op }
          (TimestampFilter.Serialize FormatRFC3339 { Timestamp := ts, Operator := op } s T).1
          T).1
        (TimestampFilter.effectiveTag op T)
        = Values.index s (TimestampFilter.effectiveTag op T)
          ++ [String.intercalate "," (ts.map FormatRFC3339),
              String.intercalate "," (ts.map FormatRFC3339)] ∧
      ∀ k, k ≠ TimestampFilter.effectiveTag op T →
        (TimestampFilter.Serialize FormatRFC3339 { Timestamp := ts, Operator := op }
          (TimestampFilter.Serialize FormatRFC3339 { Timestamp := ts, Operator := op } s T).1
          T).1.lookup k = s.lookup k) := by
  have hlen : V.length > 0 := List.length_pos.mpr hV
  have hf : ∀ s0 : Values, Filter.Serialize { Values := V } s0 T
      = (Values.Add s0 T (String.intercalate "," V), none) := by
    intro s0; simp [Filter.Serialize, hlen]
  have he : ∀ s0 : Values, ExclusionFilter.Serialize { Values := V, Not := n } s0 T
      = (Values.Add s0 (if n then T ++ "[not]" else T) (String.intercalate "," V), none) := by
    intro s0; simp [ExclusionFilter.Serialize, hlen]
  have ht : ∀ s0 : Values,
      TimestampFilter.Serialize FormatRFC3339 { Timestamp := ts, Operator := op } s0 T
        = (Values.Add s0 (TimestampFilter.effectiveTag op T)
            (String.intercalate "," (ts.map FormatRFC3339)), none) :=
    fun s0 => TimestampFilter.Serialize_eq_effectiveTag FormatRFC3339 _ s0 T hts
  refine ⟨⟨?_, ?_⟩, ⟨?_, ?_⟩, ⟨?_, ?_⟩⟩
  · rw [hf, hf]; exact Values.index_Add_Add_self s _ _ _
  · intro k hk; rw [hf, hf]; exact Values.lookup_Add_Add_ne s _ _ hk
  · rw [he, he]; exact Values.index_Add_Add_self s _ _ _
  · intro k hk; rw [he, he]; exact Values.lookup_Add_Add_ne s _ _ hk
  · rw [ht, ht]; exact Values.index_Add_Add_self s _ _ _
  · intro k hk; rw [ht, ht]; exact Values.lookup_Add_Add_ne s _ _ hk

end Timestamp

theorem serialize_twice_appends_twice_witness :
    Values.index
        (Filter.Serialize { Values := ["a", "b"] }
          (Filter.Serialize { Values := ["a", "b"] } (AList.singleton "names" ["z"])
            "names").1 "names").1 "names"
      = Values.index (AList.singleton "names" ["z"]) "names"
        ++ [String.intercalate "," ["a", "b"], String.intercalate "," ["a", "b"]] :=
  (serialize_twice_appends_twice (fun x : String => x) ["a", "b"] true
    ["2020-01-01T00:00:00Z"] FilterModifierLessThan "names" (AList.singleton "names" ["z"])
    (by decide) (by decide)).1.1

section Timestamp

variable {Time : Type} (FormatRFC3339 : Time → String)

/-- C16: every `Serialize` only appends to the sink.  For each name the values
held after the call are the values held before it followed by the values
added (`extra`, possibly none); and for `Filter`, `ExclusionFilter`,
`TimestampFilter` and `LabelSelector` every name other than the one effective
tag keeps exactly what it had. -/
theorem serialize_append_only (f : Filter) (e : ExclusionFilter) (t : TimestampFilter Time)
    (tl : TimestampFilterList Time) (l : LabelSelector) (T : String) (s : Values) :
    ((∀ k, ∃ extra, Values.index (Filter.Serialize f s T).1 k = Values.index s k ++ extra) ∧
      ∀ k, k ≠ T → (Filter.Serialize f s T).1.lookup k = s.lookup k) ∧
    ((∀ k, ∃ extra,
        Values.index (ExclusionFilter.Serialize e s T).1 k = Values.index s k ++ extra) ∧
      ∀ k, k ≠ (if e.Not then T ++ "[not]" else T) →
        (ExclusionFilter.Serialize e s T).1.lookup k = s.lookup k) ∧
    ((∀ k, ∃ extra,
        Values.index (t.Serialize FormatRFC3339 s T).1 k = Values.index s k ++ extra) ∧
      ∀ k, k ≠ TimestampFilter.effectiveTag t.Operator T →
        (t.Serialize FormatRFC3339 s T).1.lookup k = s.lookup k) ∧
    (∀ k, ∃ extra,
      Values.index (TimestampFilterList.Serialize FormatRFC3339 tl s T).1 k
        = Values.index s k ++ extra) ∧
    (∀ out, LabelSelector.Serialize l s T out →
      (∀ k, ∃ extra, Values.index out.1 k = Values.index s k ++ extra) ∧
      ∀ k, k ≠ T → out.1.lookup k = s.lookup k) :=
  ⟨Values.grows_of_eq_or_Add (filter_serialize_eq_or_Add f s T),
    Values.grows_of_eq_or_Add (exclusionFilter_serialize_eq_or_Add e s T),
    Values.grows_of_eq_or_Add (timestampFilter_serialize_eq_or_Add FormatRFC3339 t s T),
    TimestampFilterList.Serialize_grows FormatRFC3339 tl s T,
    fun out h => Values.grows_of_eq_or_Add (labelSelector_serialize_eq_or_Add l s T out h).2⟩

/-- C17: every `Serialize` returns `nil`, for every receiver (empty ones and
predicates with an undeclared modifier included), every tag and every sink;
for `LabelSelector` every possible result does, and there is one. -/
theorem serialize_returns_nil (f : Filter) (e : ExclusionFilter) (t : TimestampFilter Time)
    (tl : TimestampFilterList Time) (l : LabelSelector) (T : String) (s : Values) :
    (Filter.Serialize f s T).2 = none ∧
    (ExclusionFilter.Serialize e s T).2 = none ∧
    (t.Serialize FormatRFC3339 s T).2 = none ∧
    (TimestampFilterList.Serialize FormatRFC3339 tl s T).2 = none ∧
    (∃ out, LabelSelector.Serialize l s T out) ∧
    (∀ out, LabelSelector.Serialize l s T out → out.2 = none) := by
  refine ⟨?_, ?_, timestampFilter_serialize_snd FormatRFC3339 t s T,
    timestampFilterList_serialize_snd FormatRFC3339 tl s T,
    LabelSelector.Serialize_total l s T,
    fun out h => (labelSelector_serialize_eq_or_Add l s T out h).1⟩
  · unfold Filter.Serialize
    split <;> rfl
  · unfold ExclusionFilter.Serialize
    split <;> rfl

/-- C19: a predicate with at least one instant whose `Operator` is none of the
five declared constants takes the `!= FilterModifierNone` branch with
`String()` returning `""`: the joined instants are added under `T + "[]"`,
which is not `T`. -/
theorem timestampFilter_undeclared_modifier (t : TimestampFilter Time) (T : String)
    (s : Values) (hts : t.Timestamp ≠ []) (hop : t.Operator ∉ FilterModifier.declared) :
    FilterModifier.String t.Operator = "" ∧
    t.Serialize FormatRFC3339 s T
      = (Values.Add s (T ++ "[" ++ FilterModifier.String t.Operator ++ "]")
          (String.intercalate "," (t.Timestamp.map FormatRFC3339)), none) ∧
    t.Serialize FormatRFC3339 s T
      = (Values.Add s (T ++ "[]")
          (String.intercalate "," (t.Timestamp.map FormatRFC3339)), none) ∧
    T ++ "[]" ≠ T := by
  simp only [FilterModifier.declared, List.mem_cons, List.mem_singleton, List.not_mem_nil,
    or_false, not_or] at hop
  obtain ⟨h0, h1, h2, h3, h4⟩ := hop
  have hs : FilterModifier.String t.Operator = "" := by
    simp [FilterModifier.String, h1, h2, h3, h4]
  have hser := TimestampFilter.Serialize_of_ne_nil FormatRFC3339 t s T hts
  rw [if_pos h0] at hser
  have hname : T ++ "[" ++ "" ++ "]" = T ++ "[]" := by
    rw [String.append_assoc, String.append_assoc]; rfl
  refine ⟨hs, hser, ?_, ?_⟩
  · rw [hser, hs, hname]
  · intro h
    exact string_ne_append_of_length_pos T "[]" (by decide) h.symm

end Timestamp

theorem serialize_append_only_witness :
    (∀ k, ∃ extra,
      Values.index (LabelSelector.SerializeRange exampleSelector exampleSelector.entries
        (AList.singleton "names" ["z"]) "label_selector").1 k
        = Values.index (AList.singleton "names" ["z"]) k ++ extra) ∧
    ∀ k, k ≠ "label_selector" →
      (LabelSelector.SerializeRange exampleSelector exampleSelector.entries
        (AList.singleton "names" ["z"]) "label_selector").1.lookup k
        = (AList.singleton "names" ["z"] : Values).lookup k :=
  (serialize_append_only (fun x : String => x) {} {} { Timestamp := [] } [] exampleSelector
    "label_selector" (AList.singleton "names" ["z"])).2.2.2.2 _
    ⟨exampleSelector.entries, List.Perm.refl _, rfl⟩

theorem serialize_returns_nil_witness :
    (LabelSelector.SerializeRange exampleSelector exampleSelector.entries ∅ "").2 = none :=
  (serialize_returns_nil (fun x : String => x) {} {} { Timestamp := [], Operator := ⟨9⟩ } []
    exampleSelector "" ∅).2.2.2.2.2 _ ⟨exampleSelector.entries, List.Perm.refl _, rfl⟩

theorem timestampFilter_undeclared_modifier_witness :
    TimestampFilter.Serialize (fun x : String => x)
        { Timestamp := ["2020-01-01T00:00:00Z"], Operator := ⟨7⟩ } ∅ "created_ats"
      = (Values.Add ∅ ("created_ats" ++ "[]")
          (String.intercalate "," (["2020-01-01T00:00:00Z"].map (fun x : String => x))),
          none) :=
  (timestampFilter_undeclared_modifier (fun x : String => x)
    { Timestamp := ["2020-01-01T00:00:00Z"], Operator := ⟨7⟩ } "created_ats" ∅
    (by decide) (by decide)).2.2.1

/-! ## Reading back a comma-joined value -/

/-- The characters of `strings.Join(xs, sep)` are the character lists of `xs`
with the characters of `sep` between them. -/
theorem join_data (sep : String) (xs : List String) :
    (String.intercalate sep xs).data = List.intercalate sep.data (xs.map String.data) := by
  induction xs with
  | nil => simp [String.intercalate, List.intercalate]
  | cons a rest ih =>
    cases rest with
    | nil => simp [join_singleton, List.intercalate]
    | cons b rest2 =>
      rw [join_cons_cons, String.data_append, String.data_append, ih]
      simp [List.intercalate, List.intersperse]

/-- Cutting the join of a non-empty list of comma-free strings at the commas
gives the list back. -/
theorem splitComma_join (V : List String) (hV : V ≠ [])
    (hc : ∀ v ∈ V, ',' ∉ v.data) : splitComma (String.intercalate "," V) = V := by
  have hd : (",").data = [','] := rfl
  have hc2 : ∀ l ∈ V.map String.data, ',' ∉ l := by
    intro l hl
    obtain ⟨v, hv, rfl⟩ := List.mem_map.mp hl
    exact hc v hv
  have hne : V.map String.data ≠ [] := by simpa using hV
  unfold splitComma
  rw [join_data, hd, List.splitOn_intercalate _ ',' hc2 hne, List.map_map]
  have : (String.mk ∘ String.data) = id := by
    funext v
    rfl
  rw [this, List.map_id]

/-- C20: for non-empty lists `V` and `W` of comma-free values, cutting the
value written for `V` at the commas gives `V` back, and if `Filter{V}` and
`Filter{W}` write the same value under the tag (in particular if the two
calls leave the same sink) then `V = W`.  Without the comma-free condition
this fails: `["a,b"]` and `["a", "b"]` are different lists and leave the same
sink. -/
theorem filter_serialize_injective (V W : List String) (T : String) (s : Values)
    (hV : V ≠ []) (hW : W ≠ []) (hVc : ∀ v ∈ V, ',' ∉ v.data)
    (hWc : ∀ w ∈ W, ',' ∉ w.data) :
    splitComma (String.intercalate "," V) = V ∧
    (Values.index (Filter.Serialize { Values := V } s T).1 T
        = Values.index (Filter.Serialize { Values := W } s T).1 T → V = W) ∧
    (Filter.Serialize { Values := V } s T = Filter.Serialize { Values := W } s T → V = W) ∧
    ((["a,b"] : List String) ≠ ["a", "b"] ∧
      Filter.Serialize { Values := ["a,b"] } s T
        = Filter.Serialize { Values := ["a", "b"] } s T) := by
  have hsV := splitComma_join V hV hVc
  have hsW := splitComma_join W hW hWc
  have hfV : Filter.Serialize { Values := V } s T
      = (Values.Add s T (String.intercalate "," V), none) := by
    simp [Filter.Serialize, List.length_pos.mpr hV]
  have hfW : Filter.Serialize { Values := W } s T
      = (Values.Add s T (String.intercalate "," W), none) := by
    simp [Filter.Serialize, List.length_pos.mpr hW]
  have key : Values.index (Filter.Serialize { Values := V } s T).1 T
      = Values.index (Filter.Serialize { Values := W } s T).1 T → V = W := by
    intro h
    rw [hfV, hfW, Values.index_Add_self, Values.index_Add_self] at h
    have hj : String.intercalate "," V = String.intercalate "," W := by
      have := List.append_cancel_left h
      simpa using this
    rw [← hsV, ← hsW, hj]
  refine ⟨hsV, key, fun h => key (by rw [h]), by decide, ?_⟩
  simp [Filter.Serialize]
  rfl

theorem filter_serialize_injective_witness :
    splitComma (String.intercalate "," ["a", "b"]) = ["a", "b"] :=
  (filter_serialize_injective ["a", "b"] ["c"] "names" ∅ (by decide) (by decide)
    (by decide) (by decide)).1

/-! ## Declared modifiers write under different names -/

section Timestamp

variable {Time : Type} (FormatRFC3339 : Time → String)

/-- C21: `FilterModifier.String` is injective on the five declared constants.
For a tag `T`, two predicates with at least one instant each and different
declared modifiers are written under different names: each `Serialize` adds
its value under its own name and leaves the name of the other as it was, and
serialising one after the other leaves each value alone under its name, after
the values that name already held. -/
theorem timestampFilter_declared_modifiers_separate (op1 op2 : FilterModifier)
    (ts1 ts2 : List Time) (T : String) (s : Values)
    (h1 : op1 ∈ FilterModifier.declared) (h2 : op2 ∈ FilterModifier.declared)
    (hne : op1 ≠ op2) (hts1 : ts1 ≠ []) (hts2 : ts2 ≠ []) :
    (∀ a ∈ FilterModifier.declared, ∀ b ∈ FilterModifier.declared,
      FilterModifier.String a = FilterModifier.String b → a = b) ∧
    FilterModifier.String op1 ≠ FilterModifier.String op2 ∧
    TimestampFilter.effectiveTag op1 T ≠ TimestampFilter.effectiveTag op2 T ∧
    TimestampFilter.Serialize FormatRFC3339 { Timestamp := ts1, Operator := op1 } s T
      = (Values.Add s (TimestampFilter.effectiveTag op1 T)
          (String.intercalate "," (ts1.map FormatRFC3339)), none) ∧
    TimestampFilter.Serialize FormatRFC3339 { Timestamp := ts2, Operator := op2 } s T
      = (Values.Add s (TimestampFilter.effectiveTag op2 T)
          (String.intercalate "," (ts2.map FormatRFC3339)), none) ∧
    (TimestampFilter.Serialize FormatRFC3339 { Timestamp := ts1, Operator := op1 } s T).1.lookup
        (TimestampFilter.effectiveTag op2 T)
      = s.lookup (TimestampFilter.effectiveTag op2 T) ∧
    (TimestampFilter.Serialize FormatRFC3339 { Timestamp := ts2, Operator := op2 } s T).1.lookup
        (TimestampFilter.effectiveTag op1 T)
      = s.lookup (TimestampFilter.effectiveTag op1 T) ∧
    (TimestampFilter.Serialize FormatRFC3339 { Timestamp := ts2, Operator := op2 }
        (TimestampFilter.Serialize FormatRFC3339 { Timestamp := ts1, Operator := op1 } s T).1
        T).1.lookup (TimestampFilter.effectiveTag op1 T)
      = some (Values.index s (TimestampFilter.effectiveTag op1 T)
          ++ [String.intercalate "," (ts1.map FormatRFC3339)]) ∧
    (TimestampFilter.Serialize FormatRFC3339 { Timestamp := ts2, Operator := op2 }
        (TimestampFilter.Serialize FormatRFC3339 { Timestamp := ts1, Operator := op1 } s T).1
        T).1.lookup (TimestampFilter.effectiveTag op2 T)
      = some (Values.index s (TimestampFilter.effectiveTag op2 T)
          ++ [String.intercalate "," (ts2.map FormatRFC3339)]) := by
  have hinj : ∀ a ∈ FilterModifier.declared, ∀ b ∈ FilterModifier.declared,
      FilterModifier.String a = FilterModifier.String b → a = b := by
    intro a ha b hb
    simp only [FilterModifier.declared, List.mem_cons, List.mem_singleton, List.not_mem_nil,
      or_false] at ha hb
    rcases ha with rfl | rfl | rfl | rfl | rfl <;>
      rcases hb with rfl | rfl | rfl | rfl | rfl <;> decide
  have hn := TimestampFilter.effectiveTag_injOn T op1 op2 h1 h2 hne
  have e1 : ∀ s0 : Values,
      TimestampFilter.Serialize FormatRFC3339 { Timestamp := ts1, Operator := op1 } s0 T
        = (Values.Add s0 (TimestampFilter.effectiveTag op1 T)
            (String.intercalate "," (ts1.map FormatRFC3339)), none) :=
    fun s0 => TimestampFilter.Serialize_eq_effectiveTag FormatRFC3339 _ s0 T hts1
  have e2 : ∀ s0 : Values,
      TimestampFilter.Serialize FormatRFC3339 { Timestamp := ts2, Operator := op2 } s0 T
        = (Values.Add s0 (TimestampFilter.effectiveTag op2 T)
            (String.intercalate "," (ts2.map FormatRFC3339)), none) :=
    fun s0 => TimestampFilter.Serialize_eq_effectiveTag FormatRFC3339 _ s0 T hts2
  refine ⟨hinj, fun h => hne (hinj op1 h1 op2 h2 h), hn, e1 s, e2 s, ?_, ?_, ?_, ?_⟩
  · rw [e1]; exact Values.lookup_Add_ne s _ hn.symm
  · rw [e2]; exact Values.lookup_Add_ne s _ hn
  · rw [e2, e1, Values.lookup_Add_ne _ _ hn, Values.lookup_Add_self]
  · rw [e2, e1, Values.lookup_Add_self, Values.index_Add_ne _ _ hn.symm]

end Timestamp

theorem timestampFilter_declared_modifiers_separate_witness :
    FilterModifier.String FilterModifierGreaterThan
      ≠ FilterModifier.String FilterModifierGreaterThanOrEqual ∧
    TimestampFilter.effectiveTag FilterModifierGreaterThan "created_ats"
      ≠ TimestampFilter.effectiveTag FilterModifierGreaterThanOrEqual "created_ats" :=
  let h := timestampFilter_declared_modifiers_separate (fun x : String => x)
    FilterModifierGreaterThan FilterModifierGreaterThanOrEqual ["2020-01-01T00:00:00Z"]
    ["2021-01-01T00:00:00Z"] "created_ats" ∅ (by decide) (by decide) (by decide) (by decide)
    (by decide)
  ⟨h.2.1, h.2.2.1⟩

/-- C8 fails for modifiers outside the five declared constants: the
predicates with `Operator` 7 and `Operator` 8 have different modifiers, and
serialising the list of the two under `"created_ats"` onto an empty sink
leaves a single name, `"created_ats[]"`, holding both values. -/
theorem timestampFilterList_undeclared_modifiers_share_name :
    (⟨7⟩ : FilterModifier) ≠ ⟨8⟩ ∧
    TimestampFilter.effectiveTag ⟨7⟩ "created_ats"
      = TimestampFilter.effectiveTag ⟨8⟩ "created_ats" ∧
    (TimestampFilterList.Serialize (fun x : String => x)
        [{ Timestamp := ["2020-01-01T00:00:00Z"], Operator := ⟨7⟩ },
          { Timestamp := ["2021-01-01T00:00:00Z"], Operator := ⟨8⟩ }] ∅
        "created_ats").1.entries
      = [⟨"created_ats[]", ["2020-01-01T00:00:00Z", "2021-01-01T00:00:00Z"]⟩] := by
  refine ⟨by decide, by decide, by decide⟩

end Cfclient
